import Mathlib

/-!
Verification development for the citation-to-text anchoring engine of the
`frontend_legal` front end.  The definitions below are a shallow embedding of
`src/components/RightPanel.jsx` (the linear-text variant of the `RightPanel`
component): quote normalisation, linear page-text extraction, the tiered
citation matcher `applyHighlights`, the highlight-rebuild effect, and the
page-navigation handlers.  Strings are modelled as `List Char` (the code
points of the JavaScript string); run coordinates are modelled as integers.
-/

namespace FrontendLegal

/-- Characters matched by the JavaScript regex class `\s`
(ECMAScript WhiteSpace and LineTerminator code points). -/
def isWs (c : Char) : Bool :=
  c == ' ' || c == '\t' || c == '\n' || c == '\r' || c == '\x0b' || c == '\x0c' ||
  c == ' ' || c == ' ' || (decide (' ' ≤ c) && decide (c ≤ ' ')) ||
  c == ' ' || c == ' ' || c == ' ' || c == ' ' ||
  c == '　' || c == '﻿'

/-- JavaScript `replace(/\s+/g, ' ')`: every maximal run of whitespace
characters becomes a single space (RightPanel.jsx line 1113). -/
def collapseWs : List Char → List Char
  | [] => []
  | [c] => if isWs c then [' '] else [c]
  | c :: d :: t =>
    if isWs c then
      (if isWs d then collapseWs (d :: t) else ' ' :: collapseWs (d :: t))
    else c :: collapseWs (d :: t)

/-- Leading-whitespace removal, half of JavaScript `String.prototype.trim`. -/
def trimLeftWs (l : List Char) : List Char := l.dropWhile isWs

/-- Trailing-whitespace removal, the other half of `trim`. -/
def trimRightWs (l : List Char) : List Char := (l.reverse.dropWhile isWs).reverse

/-- JavaScript `String.prototype.trim` on a character list. -/
def trimWs (l : List Char) : List Char := trimRightWs (trimLeftWs l)

/-- `searchText.replace(/\s+/g, ' ').trim()` — the normalisation applied to a
citation quote before matching (RightPanel.jsx line 1113). -/
def normalizeL (l : List Char) : List Char := trimWs (collapseWs l)

/-- The normalisation on Lean strings. -/
def normalize (s : String) : String := ⟨normalizeL s.data⟩

/-- Well-formedness of a collapsed string: every whitespace character is a
plain space, and no two adjacent characters are both whitespace. -/
def wsNormal : List Char → Bool
  | [] => true
  | [c] => !isWs c || c == ' '
  | c :: d :: t => (!isWs c || c == ' ') && !(isWs c && isWs d) && wsNormal (d :: t)

theorem isWs_space : isWs ' ' = true := by decide

theorem collapseWs_cons_not_ws (d : Char) (t : List Char) (h : isWs d = false) :
    ∃ r, collapseWs (d :: t) = d :: r := by
  cases t with
  | nil => exact ⟨[], by simp [collapseWs, h]⟩
  | cons e t' => exact ⟨collapseWs (e :: t'), by simp [collapseWs, h]⟩

theorem wsNormal_cons_not_ws (c : Char) (l : List Char) (h : isWs c = false) :
    wsNormal (c :: l) = wsNormal l := by
  cases l <;> simp [wsNormal, h]

theorem wsNormal_collapseWs (l : List Char) : wsNormal (collapseWs l) = true := by
  induction l using collapseWs.induct with
  | case1 => simp [collapseWs, wsNormal]
  | case2 c hc => simp [collapseWs, hc, wsNormal]
  | case3 c hc =>
    simp at hc
    simp [collapseWs, hc, wsNormal]
  | case4 c d t hc hd ih =>
    simpa [collapseWs, hc, hd] using ih
  | case5 c d t hc hd ih =>
    simp at hd
    simp only [collapseWs, hc, hd, if_true, if_false, Bool.false_eq_true]
    obtain ⟨r, hr⟩ := collapseWs_cons_not_ws d t hd
    rw [hr] at ih ⊢
    simp [wsNormal, hd, ih]
  | case6 c d t hc ih =>
    simp at hc
    simp only [collapseWs, hc, if_false, Bool.false_eq_true]
    rw [wsNormal_cons_not_ws c _ hc]
    exact ih

theorem collapseWs_eq_self {l : List Char} (h : wsNormal l = true) :
    collapseWs l = l := by
  induction l using collapseWs.induct with
  | case1 => rfl
  | case2 c hc =>
    have : c = ' ' := by
      simp [wsNormal, hc] at h
      exact h
    simp [collapseWs, hc, this]
  | case3 c hc =>
    simp at hc
    simp [collapseWs, hc]
  | case4 c d t hc hd ih =>
    exfalso
    simp [wsNormal, hc, hd] at h
  | case5 c d t hc hd ih =>
    simp at hd
    have hsp : c = ' ' := by
      simp [wsNormal, hc] at h
      tauto
    have ht : wsNormal (d :: t) = true := by
      simp [wsNormal] at h
      tauto
    simp [collapseWs, hc, hd, ih ht, hsp]
  | case6 c d t hc ih =>
    simp at hc
    have ht : wsNormal (d :: t) = true := by
      rw [wsNormal_cons_not_ws c _ hc] at h
      exact h
    simp [collapseWs, hc, ih ht]

theorem wsNormal_tail {c : Char} {l : List Char} (h : wsNormal (c :: l) = true) :
    wsNormal l = true := by
  cases l with
  | nil => simp [wsNormal]
  | cons d t =>
    simp [wsNormal] at h ⊢
    tauto

theorem wsNormal_dropWhile (p : Char → Bool) {l : List Char}
    (h : wsNormal l = true) : wsNormal (l.dropWhile p) = true := by
  induction l with
  | nil => simpa using h
  | cons c t ih =>
    rw [List.dropWhile_cons]
    by_cases hp : p c = true
    · simp only [hp, if_true]
      exact ih (wsNormal_tail h)
    · simp at hp
      simpa [hp] using h

theorem wsNormal_append_left {l r : List Char} (h : wsNormal (l ++ r) = true) :
    wsNormal l = true := by
  induction l using wsNormal.induct with
  | case1 => simp [wsNormal]
  | case2 c =>
    cases r with
    | nil => simpa using h
    | cons x xs =>
      simp [wsNormal] at h ⊢
      tauto
  | case3 c d t ih =>
    simp only [List.cons_append] at h
    simp [wsNormal] at h ⊢
    refine ⟨⟨h.1.1, h.1.2⟩, ?_⟩
    have := ih (by simpa [wsNormal] using h.2)
    simpa [wsNormal] using this

theorem exists_append_trimRightWs (l : List Char) :
    ∃ r, l = trimRightWs l ++ r := by
  obtain ⟨t, ht⟩ := List.dropWhile_suffix (l := l.reverse) isWs
  refine ⟨t.reverse, ?_⟩
  have : l.reverse = t ++ l.reverse.dropWhile isWs := ht.symm
  calc l = l.reverse.reverse := by rw [List.reverse_reverse]
    _ = (t ++ l.reverse.dropWhile isWs).reverse := by rw [← this]
    _ = trimRightWs l ++ t.reverse := by
        rw [List.reverse_append]; rfl

theorem wsNormal_trimRightWs {l : List Char} (h : wsNormal l = true) :
    wsNormal (trimRightWs l) = true := by
  obtain ⟨r, hr⟩ := exists_append_trimRightWs l
  exact wsNormal_append_left (by rw [← hr]; exact h)

theorem dropWhile_dropWhile (p : Char → Bool) (l : List Char) :
    (l.dropWhile p).dropWhile p = l.dropWhile p := by
  induction l with
  | nil => rfl
  | cons c t ih =>
    rw [List.dropWhile_cons]
    by_cases hp : p c = true
    · simpa [hp] using ih
    · simp at hp
      simp [List.dropWhile_cons, hp]

theorem trimRightWs_idem (l : List Char) :
    trimRightWs (trimRightWs l) = trimRightWs l := by
  unfold trimRightWs
  rw [List.reverse_reverse, dropWhile_dropWhile]

theorem trimLeftWs_trimRightWs_fix {l : List Char} (h : trimLeftWs l = l) :
    trimLeftWs (trimRightWs l) = trimRightWs l := by
  cases l with
  | nil => rfl
  | cons c t =>
    have hc : isWs c = false := by
      by_cases hw : isWs c = true
      · exfalso
        unfold trimLeftWs at h
        rw [List.dropWhile_cons, if_pos hw] at h
        obtain ⟨pre, hpre⟩ := List.dropWhile_suffix (l := t) isWs
        have hlen : pre.length + (t.dropWhile isWs).length = t.length := by
          have hl := congrArg List.length hpre
          simpa using hl
        rw [h] at hlen
        simp at hlen
        omega
      · simpa using hw
    obtain ⟨r, hr⟩ := exists_append_trimRightWs (c :: t)
    cases htr : trimRightWs (c :: t) with
    | nil => rfl
    | cons c' t' =>
      rw [htr] at hr
      have hcc : c' = c := by
        simp only [List.cons_append] at hr
        exact (List.cons.injEq _ _ _ _ ▸ hr).1.symm
      subst hcc
      unfold trimLeftWs
      rw [List.dropWhile_cons, if_neg (by simp [hc])]

theorem normalizeL_idem (l : List Char) :
    normalizeL (normalizeL l) = normalizeL l := by
  unfold normalizeL trimWs
  have hg : wsNormal (collapseWs l) = true := wsNormal_collapseWs l
  have h1 : wsNormal (trimLeftWs (collapseWs l)) = true :=
    wsNormal_dropWhile isWs hg
  have h2 : wsNormal (trimRightWs (trimLeftWs (collapseWs l))) = true :=
    wsNormal_trimRightWs h1
  rw [collapseWs_eq_self h2]
  have h3 : trimLeftWs (trimLeftWs (collapseWs l)) = trimLeftWs (collapseWs l) :=
    dropWhile_dropWhile isWs (collapseWs l)
  rw [trimLeftWs_trimRightWs_fix h3, trimRightWs_idem]

/-! ## Text extraction (RightPanel.jsx `extractPageText`, lines 1027-1082) -/

/-- One text run as delivered by `page.getTextContent()`: its string, the
translation components `transform[4]`, `transform[5]` of its transform matrix
(`none` models a missing transform; coordinates are modelled as integers), and
its width. -/
structure Run where
  str : String
  transform : Option (Int × Int)
  width : Int
deriving DecidableEq

/-- `item.transform ? item.transform[4] : 0`. -/
def xOf (r : Run) : Int := match r.transform with | some t => t.1 | none => 0

/-- `item.transform ? item.transform[5] : 0`. -/
def yOf (r : Run) : Int := match r.transform with | some t => t.2 | none => 0

/-- `item.str.endsWith(' ')` — a trailing literal space character. -/
def endsWithSpaceB (l : List Char) : Bool := l.getLast? == some ' '

/-- A trailing whitespace character (what the specification asks for instead). -/
def endsWithWsB (l : List Char) : Bool :=
  match l.getLast? with | some c => isWs c | none => false

/-- Line-break heuristic: `lastY !== null && Math.abs(lastY - currentY) > 5`. -/
def breakBefore (ly : Option Int) (y : Int) : List Char :=
  match ly with
  | some y0 => if 5 < |y0 - y| then ['\n'] else []
  | none => []

/-- Space-insertion heuristic for the gap to the next raw item, parameterised
by the trailing-character test `ends` (`endsWithSpaceB` in the code):
`sameY && nextX - currentX > 5 && !item.str.endsWith(' ')`. -/
def spaceAfter (ends : List Char → Bool) (item : Run) (y : Int) (next? : Option Run) :
    List Char :=
  match next? with
  | some next =>
    match next.transform with
    | some nt =>
      if |y - nt.2| < 2 && 5 < nt.1 - (xOf item + item.width) && !ends item.str.data
      then [' '] else []
    | none => []
  | none => []

/-- The body of the `textContent.items.forEach((item, index) => ...)` loop
(lines 1045-1071): runs with empty text are skipped entirely (they update
neither the text nor `lastY`); the look-ahead uses the raw successor item
`items[index + 1]`. -/
def extractStep (items : List Run) (acc : List Char × Option Int) (p : Nat × Run) :
    List Char × Option Int :=
  if p.2.str.data = [] then acc
  else
    (acc.1 ++ breakBefore acc.2 (yOf p.2) ++ p.2.str.data
       ++ spaceAfter endsWithSpaceB p.2 (yOf p.2) items[p.1 + 1]?,
     some (yOf p.2))

/-- `extractPageText`: fold the loop over the indexed items and trim the result
(line 1073 `setPageText(extractedText.trim())`). -/
def extractPageText (items : List Run) : List Char :=
  trimWs ((items.enum.foldl (extractStep items) ([], none)).1)

/-- The linear-text extraction as the specification words it: the trimmed
concatenation of the non-empty runs' strings, a line break before a run whose
vertical position differs from the previous non-empty run's by more than 5
units, and one space after a run whose raw successor sits on the same visual
line more than 5 units right of the run's right edge, unless the run's text
already ends as judged by `ends` (the claim says trailing whitespace,
`endsWithWsB`; the code tests a trailing space character, `endsWithSpaceB`). -/
def extractLinear (ends : List Char → Bool) : Option Int → List Run → List Char
  | _, [] => []
  | ly, r :: rest =>
    if r.str.data = [] then extractLinear ends ly rest
    else
      breakBefore ly (yOf r) ++ r.str.data
        ++ spaceAfter ends r (yOf r) rest.head?
        ++ extractLinear ends (some (yOf r)) rest

/-- Trimmed top-level form of `extractLinear`. -/
def extractLinearText (ends : List Char → Bool) (items : List Run) : List Char :=
  trimWs (extractLinear ends none items)

theorem extract_aux (items : List Run) :
    ∀ (l : List Run) (k : Nat), items.drop k = l →
    ∀ (pre : List Char) (ly : Option Int),
      ((List.enumFrom k l).foldl (extractStep items) (pre, ly)).1 =
        pre ++ extractLinear endsWithSpaceB ly l := by
  intro l
  induction l with
  | nil =>
    intro k hk pre ly
    simp [extractLinear]
  | cons r rest ih =>
    intro k hk pre ly
    have hk1 : items.drop (k + 1) = rest := by
      rw [← List.tail_drop, hk]
      rfl
    have hnext : items[k + 1]? = rest.head? := by
      have h1 : (items.drop k)[1]? = items[k + 1]? := List.getElem?_drop items k 1
      rw [hk] at h1
      rw [← h1]
      cases rest <;> simp
    rw [List.enumFrom_cons, List.foldl_cons]
    by_cases he : r.str.data = []
    · have hstep : extractStep items (pre, ly) (k, r) = (pre, ly) := by
        simp [extractStep, he]
      rw [hstep, ih (k + 1) hk1 pre ly]
      simp [extractLinear, he]
    · have hstep : extractStep items (pre, ly) (k, r) =
          (pre ++ breakBefore ly (yOf r) ++ r.str.data
             ++ spaceAfter endsWithSpaceB r (yOf r) rest.head?, some (yOf r)) := by
        simp [extractStep, he, hnext]
      rw [hstep, ih (k + 1) hk1 _ _]
      simp [extractLinear, he, List.append_assoc]

/-- The extraction loop agrees with the specification-style description once
the trailing-character test is the code's `endsWith(' ')`. -/
theorem extractPageText_eq_spec (items : List Run) :
    extractPageText items = extractLinearText endsWithSpaceB items := by
  unfold extractPageText extractLinearText
  have h := extract_aux items items 0 (by simp) [] none
  rw [← List.enum_eq_enumFrom] at h
  rw [h]
  rfl

/-! ## The citation matcher (RightPanel.jsx `applyHighlights`, lines 1084-1167) -/

/-- A citation record from the answering service.  JavaScript
`citation.quote || citation.content_preview` treats an empty string as absent,
so both text fields are optional. -/
structure Citation where
  page : Int
  quote : Option String := none
  content_preview : Option String := none
deriving DecidableEq

/-- `citation.quote || citation.content_preview` with JavaScript falsiness: an
empty or missing quote falls through to the preview; `none` when both are
missing or empty (in the code that case is caught by `!searchText`). -/
def searchTextOf (c : Citation) : Option String :=
  let fb := match c.content_preview with
    | some p => if p.data = [] then none else some p
    | none => none
  match c.quote with
  | some q => if q.data = [] then fb else some q
  | none => fb

/-- Case-insensitive character comparison, the regex `i` flag (ASCII fold). -/
def ciEq (a b : Char) : Bool := a.toLower == b.toLower

/-- `pat` is a case-insensitive prefix of `t`. -/
def startsWithCI : List Char → List Char → Bool
  | [], _ => true
  | _ :: _, [] => false
  | p :: ps, c :: cs => ciEq p c && startsWithCI ps cs

/-- JavaScript word character, the regex class `\w`. -/
def isWordChar (c : Char) : Bool :=
  (decide ('a' ≤ c) && decide (c ≤ 'z')) || (decide ('A' ≤ c) && decide (c ≤ 'Z')) ||
  (decide ('0' ≤ c) && decide (c ≤ '9')) || c == '_'

/-- `cleanSearchText.split(/\s+/)` worker: split on maximal whitespace runs;
`cur` is the reversed current field, `inD` marks being inside a delimiter run
(a leading or trailing run yields an empty field, as in JavaScript). -/
def splitWsGo : List Char → List Char → Bool → List (List Char)
  | [], cur, inD => if inD then [[]] else [cur.reverse]
  | c :: t, cur, inD =>
    if isWs c then
      if inD then splitWsGo t [] true
      else cur.reverse :: splitWsGo t [] true
    else splitWsGo t (c :: cur) false

/-- `cleanSearchText.split(/\s+/)` (lines 1122 and 1150). -/
def splitWs (l : List Char) : List (List Char) := splitWsGo l [] false

/-- `word.replace(/[,.\-&()]/g, '')` (lines 1126 and 1152). -/
def stripPunct (l : List Char) : List Char :=
  l.filter (fun c =>
    !(c == ',' || c == '.' || c == '-' || c == '&' || c == '(' || c == ')'))

/-- The regex character class `[\s,.&()\-]` of the tier-2 sequence pattern. -/
def isClsChar (c : Char) : Bool :=
  isWs c || c == ',' || c == '.' || c == '&' || c == '(' || c == ')' || c == '-'

/-- `escapeRegExp` (lines 1084-1086): prefix every regex metacharacter with a
backslash.  In tier 1 it is applied AFTER `\s+` has been substituted into the
pattern (line 1116-1117), so the substituted backslash and plus are escaped as
well and the compiled tier-1 regex matches its pattern text literally. -/
def escapeRegExp (l : List Char) : List Char :=
  l.flatMap (fun c =>
    if c == '.' || c == '*' || c == '+' || c == '?' || c == '^' || c == '$' ||
       c == '\x7b' || c == '\x7d' || c == '(' || c == ')' || c == '|' ||
       c == '[' || c == ']' || c == '\\'
    then ['\\', c] else [c])

/-- `cleanSearchText.replace(/\s+/g, '\\s+')` (line 1116): every whitespace
run becomes the three literal characters `\s+`. -/
def flexRepl : List Char → List Char
  | [] => []
  | [c] => if isWs c then ['\\', 's', '+'] else [c]
  | c :: d :: t =>
    if isWs c then
      (if isWs d then flexRepl (d :: t) else '\\' :: 's' :: '+' :: flexRepl (d :: t))
    else c :: flexRepl (d :: t)

/-- Left-to-right scan for non-overlapping case-insensitive occurrences of the
non-empty literal `pat`; yields (start index, matched characters).  The fuel
argument only bounds the structural recursion and is supplied as
`text.length + 1`, which the advancing index can never exhaust. -/
def scanLitCI (pat : List Char) : Nat → Nat → List Char → List (Nat × List Char)
  | 0, _, _ => []
  | _ + 1, _, [] => []
  | fuel + 1, i, t@(_ :: rest) =>
    if startsWithCI pat t then
      (i, t.take pat.length) :: scanLitCI pat fuel (i + pat.length) (t.drop pat.length)
    else scanLitCI pat fuel (i + 1) rest

/-- All matches of `new RegExp(escapeRegExp(flexibleSearchText), 'gi')` in
`text` (lines 1117-1118).  Because `escapeRegExp` escapes every metacharacter
of its input, the compiled regex matches the string `flexibleSearchText`
literally and case-insensitively (`tier1_escaping_bug` below evaluates this);
an empty pattern matches the empty string at every index, as in JavaScript. -/
def matchAllLitCI (pat text : List Char) : List (Nat × List Char) :=
  if pat = [] then (List.range (text.length + 1)).map (fun i => (i, []))
  else scanLitCI pat (text.length + 1) 0 text

/-- Word-character test through `Option`, out-of-bounds counting as non-word. -/
def optWordChar : Option Char → Bool
  | some c => isWordChar c
  | none => false

/-- The regex word-boundary `\b` between two adjacent characters. -/
def isBoundary (prev next : Option Char) : Bool := optWordChar prev != optWordChar next

/-- Left-to-right scan for the whole-word regex
`new RegExp('\\b' + escapeRegExp(cleanWord) + '\\b', 'gi')` (line 1154):
case-insensitive occurrences of `w` delimited by word boundaries; `prev`
carries the character preceding the current position.  Callers guard
`w.length > 2`, so `w` is never empty. -/
def scanWordCI (w : List Char) : Nat → Nat → Option Char → List Char → List (Nat × List Char)
  | 0, _, _, _ => []
  | _ + 1, _, _, [] => []
  | fuel + 1, i, prev, t@(c :: rest) =>
    if startsWithCI w t && isBoundary prev (some c) &&
       isBoundary (t.take w.length).getLast? (t.drop w.length).head? then
      (i, t.take w.length) ::
        scanWordCI w fuel (i + w.length) (t.take w.length).getLast? (t.drop w.length)
    else scanWordCI w fuel (i + 1) (some c) rest

/-- All whole-word case-insensitive matches of `w` in `text`. -/
def matchAllWordCI (w text : List Char) : List (Nat × List Char) :=
  scanWordCI w (text.length + 1) 0 none text

/-- Length of the run of class characters at the head of `l`. -/
def clsRun : List Char → Nat
  | [] => 0
  | c :: t => if isClsChar c then clsRun t + 1 else 0

/-- Word-boundary test at absolute position `p` of `text`. -/
def bndAt (text : List Char) (p : Nat) : Bool :=
  isBoundary (if p = 0 then none else text[p - 1]?) text[p]?

/-- Greedy backtracking for a star: try `f k`, `f (k-1)`, ..., `f 0`; first
success wins (a backtracking regex engine prefers the longest star first). -/
def firstSucc (f : Nat → Option Nat) : Nat → Option Nat
  | 0 => f 0
  | k + 1 => match f (k + 1) with | some e => some e | none => firstSucc f k

/-- Match of the tier-2 sequence pattern
`\bW1\b[\s,.&()\-]*\bW2\b ... [\s,.&()\-]*\bWn\b` (lines 1125-1131) starting
at position `p` of `text`: each word occurs literally (case-insensitively)
between word boundaries, with any run of class characters between consecutive
words.  Returns the end position of the match. -/
def seqEnd (text : List Char) : List (List Char) → Nat → Option Nat
  | [], p => some p
  | [w], p =>
    if bndAt text p && startsWithCI w (text.drop p) && bndAt text (p + w.length)
    then some (p + w.length) else none
  | w :: w2 :: ws, p =>
    if bndAt text p && startsWithCI w (text.drop p) && bndAt text (p + w.length)
    then firstSucc (fun k => seqEnd text (w2 :: ws) (p + w.length + k))
           (clsRun (text.drop (p + w.length)))
    else none

/-- `matchAll` with the tier-2 sequence regex (line 1131-1132): scan start
positions left to right; after a match continue at its end (JavaScript moves
`lastIndex` to the match end, or one past the start for an empty match). -/
def scanSeq (ws : List (List Char)) (text : List Char) : Nat → Nat → List (Nat × List Char)
  | 0, _ => []
  | fuel + 1, i =>
    if text.length < i then []
    else match seqEnd text ws i with
      | some e =>
        (i, (text.drop i).take (e - i)) ::
          scanSeq ws text fuel (if i < e then e else i + 1)
      | none => scanSeq ws text fuel (i + 1)

/-- All matches of the tier-2 sequence pattern in `text`. -/
def matchAllSeq (ws : List (List Char)) (text : List Char) : List (Nat × List Char) :=
  scanSeq ws text (text.length + 2) 0

/-- Opening tag of a phrase-tier highlight
(line 1145, with `highlightId = highlight-INDEX-START`). -/
def markOpen (cIdx start : Nat) : List Char :=
  ("<mark class=\"citation-highlight\" data-citation-id=\"" ++ Nat.repr cIdx ++
   "\" id=\"highlight-" ++ Nat.repr cIdx ++ "-" ++ Nat.repr start ++ "\">").data

/-- Closing tag of a highlight element. -/
def markClose : List Char := "</mark>".data

/-- Opening tag of a word-fallback highlight (line 1156). -/
def wordOpen (cIdx : Nat) : List Char :=
  ("<mark class=\"citation-highlight-word\" data-citation-id=\"" ++
   Nat.repr cIdx ++ "\">").data

/-- The phrase-tier replacement loop (lines 1136-1147): matches are processed
in reverse order (`matches.reverse().forEach`) so earlier indices stay valid;
each matched slice is wrapped in a `citation-highlight` mark element. -/
def wrapMatches (cIdx : Nat) (content : List Char) (ms : List (Nat × List Char)) : List Char :=
  ms.foldr (fun m acc =>
    acc.take m.1 ++ markOpen cIdx m.1 ++ m.2 ++ markClose ++ acc.drop (m.1 + m.2.length))
    content

/-- One word-fallback replacement
`highlightedContent.replace(wordRegex, '<mark ...>$&</mark>')` (lines
1154-1157): wrap every whole-word case-insensitive occurrence of `w`. -/
def replaceWordAll (cIdx : Nat) (w content : List Char) : List Char :=
  (matchAllWordCI w content).foldr (fun m acc =>
    acc.take m.1 ++ wordOpen cIdx ++ m.2 ++ markClose ++ acc.drop (m.1 + m.2.length))
    content

/-- The word-fallback tier (lines 1148-1160): for each word of the cleaned
quote longer than two characters, strip `[,.\-&()]` and, if the stripped word
is still longer than two characters, highlight its whole-word occurrences. -/
def fallbackWords (cIdx : Nat) (words : List (List Char)) (content : List Char) : List Char :=
  words.foldl (fun acc w =>
    if 2 < (stripPunct w).length then replaceWordAll cIdx (stripPunct w) acc else acc)
    content

/-- Processing of one citation inside `currentPageCitations.forEach` (lines
1107-1163): search-text selection and raw-length guard, the tier-1 regex, the
tier-2 word-sequence regex for multi-word quotes, phrase replacement on
success, word fallback otherwise. -/
def processCitation (content : List Char) (cIdx : Nat) (c : Citation) : List Char :=
  match searchTextOf c with
  | none => content
  | some s =>
    if s.length < 3 then content
    else
      let clean := normalizeL s.data
      let m1 := matchAllLitCI (flexRepl clean) content
      let words := (splitWs clean).filter (fun w => 2 < w.length)
      let ms := if m1.isEmpty && 1 < words.length
                then matchAllSeq (words.map stripPunct) content
                else m1
      if ms.isEmpty then fallbackWords cIdx words content
      else wrapMatches cIdx content ms

/-- `applyHighlights` (lines 1088-1167) as a pure function of the page text,
the citation list and the current page: empty page text yields the empty
string; citations are filtered to the current page; each surviving citation
rewrites the accumulated content in list order, indexed by its position in the
filtered list. -/
def applyHighlights (pageText : String) (cits : List Citation) (currentPage : Int) : String :=
  if pageText.data = [] then ⟨[]⟩
  else
    let cs := cits.filter (fun c => c.page == currentPage)
    if cs = [] then pageText
    else ⟨cs.enum.foldl (fun content p => processCitation content p.1 p.2) pageText.data⟩

/-! ## Component state: highlight rebuild, navigation, extraction events -/

/-- The `RightPanel` state relevant to the claims. -/
structure PanelState where
  currentPage : Int
  totalPages : Int
  pageText : String
  highlightedText : String
deriving DecidableEq

/-- The highlight-rebuild effect (lines 992-997): when the page text is
non-empty, recompute `highlightedText` from scratch from the page text, the
citation list and the current page (the computation never reads the previous
`highlightedText`). -/
def rebuildHighlights (s : PanelState) (cits : List Citation) : PanelState :=
  if s.pageText.data = [] then s
  else { s with highlightedText := applyHighlights s.pageText cits s.currentPage }

/-- `goToPage` (lines 1319-1323). -/
def goToPage (s : PanelState) (pageNum : Int) : PanelState :=
  if 1 ≤ pageNum ∧ pageNum ≤ s.totalPages then { s with currentPage := pageNum } else s

/-- `handlePrevPage` (lines 1326-1330). -/
def handlePrevPage (s : PanelState) : PanelState :=
  if 1 < s.currentPage then { s with currentPage := s.currentPage - 1 } else s

/-- `handleNextPage` (lines 1332-1336). -/
def handleNextPage (s : PanelState) : PanelState :=
  if s.currentPage < s.totalPages then { s with currentPage := s.currentPage + 1 } else s

/-- The current-page invariant of claim C10. -/
def pageInvariant (s : PanelState) : Prop :=
  1 ≤ s.currentPage ∧ s.currentPage ≤ s.totalPages

/-- Asynchronous events on the viewer state: a navigation (`setCurrentPage`)
and the completion of a text extraction that was started for page `forPage`.
`extractPageText` (lines 1027-1082) calls `setPageText` unconditionally when
its awaited work completes — the code carries no generation counter or
staleness token — and the effect of lines 992-997 then rebuilds the highlights
against whatever page is current; `forPage` is recorded only to express
staleness in the claims. -/
inductive PanelEvent where
  | navigate (m : Int)
  | completeExtract (forPage : Int) (text : String)
deriving DecidableEq

/-- One event step of the viewer. -/
def stepEvent (cits : List Citation) (s : PanelState) : PanelEvent → PanelState
  | .navigate m => { s with currentPage := m }
  | .completeExtract _ t => rebuildHighlights { s with pageText := t } cits

/-- Number of (case-sensitive, possibly overlapping) occurrences of the
non-empty pattern `pat` in `text`; used to count highlight elements. -/
def countLit (pat : List Char) : List Char → Nat
  | [] => 0
  | t@(_ :: rest) => (if pat.isPrefixOf t then 1 else 0) + countLit pat rest

/-! ## Supporting lemmas for the claim theorems -/

theorem fallbackWords_cons (cIdx : Nat) (w : List Char) (t : List (List Char))
    (content : List Char) :
    fallbackWords cIdx (w :: t) content =
      fallbackWords cIdx t
        (if 2 < (stripPunct w).length then replaceWordAll cIdx (stripPunct w) content
         else content) := rfl

theorem fallbackWords_eq_filtered (cIdx : Nat) (ws : List (List Char)) (content : List Char) :
    fallbackWords cIdx ws content =
      ((ws.map stripPunct).filter (fun w => 2 < w.length)).foldl
        (fun acc w => replaceWordAll cIdx w acc) content := by
  induction ws generalizing content with
  | nil => rfl
  | cons w t ih =>
    rw [fallbackWords_cons]
    by_cases h : 2 < (stripPunct w).length
    · simp only [h, if_true, List.map_cons, List.filter_cons, decide_eq_true_eq,
        if_pos h, List.foldl_cons]
      exact ih _
    · simp only [h, if_false, List.map_cons, List.filter_cons, decide_eq_true_eq,
        if_neg h]
      exact ih _

theorem processCitation_eq_fallback (content : List Char) (cIdx : Nat) (c : Citation)
    (s : String) (hs : searchTextOf c = some s) (hlen : ¬ s.length < 3)
    (h1 : matchAllLitCI (flexRepl (normalizeL s.data)) content = [])
    (h2 : 1 < ((splitWs (normalizeL s.data)).filter (fun w => 2 < w.length)).length →
      matchAllSeq (((splitWs (normalizeL s.data)).filter (fun w => 2 < w.length)).map
        stripPunct) content = []) :
    processCitation content cIdx c =
      fallbackWords cIdx ((splitWs (normalizeL s.data)).filter (fun w => 2 < w.length))
        content := by
  unfold processCitation
  rw [hs]
  by_cases hw : 1 < ((splitWs (normalizeL s.data)).filter (fun w => 2 < w.length)).length
  · simp [hlen, h1, hw, h2 hw]
  · simp [hlen, h1, hw]

/-! ## Concrete inputs used by the claim theorems -/

set_option maxRecDepth 200000

/-- A 17-word quote: one word of length 3 that occurs on the page, fifteen
filler words of length 4 that do not, and a sixteenth length-over-3 word
("zebra") that does. -/
def c5quote : String :=
  "cat qaza qazb qazc qazd qaze qazf qazg qazh qazi qazj qazk qazl qazm qazn qazo zebra"

/-- The word-fallback tier as claim C5 words it: at most the first 15 words of
the normalized quote having length > 3 characters, each highlighted at every
whole-word case-insensitive occurrence. -/
def claimWordFallback (cIdx : Nat) (clean content : List Char) : List Char :=
  (((splitWs clean).filter (fun w => 3 < w.length)).take 15).foldl
    (fun acc w => replaceWordAll cIdx w acc) content

/-- A quote of normalized length 106: its first sentence (52 characters, kept
by the claimed `[.!?]+` split and 20-character filter) is verbatim on the
page, its second half is paraphrased away. -/
def c6quote : String :=
  "the quick brown fox jumps over the lazy sleeping dog. entirely different paraphrased second half here okay"

/-- The first sentence of `c6quote`, also the whole page text. -/
def c6sentence : String := "the quick brown fox jumps over the lazy sleeping dog"

/-- The page text of the C6 scenario: exactly the first sentence. -/
def c6page : String := c6sentence

/-- Initial viewer state for the staleness trace of claim C9: one-page view of
a freshly loaded two-page document. -/
def staleInit : PanelState := ⟨1, 2, "", ""⟩

/-- C9 failing trace, first part: the user navigates to page 2 and page 2's
extraction completes, while page 1's extraction is still in flight. -/
def staleMid : PanelState :=
  [PanelEvent.navigate 2, PanelEvent.completeExtract 2 "page two text"].foldl
    (stepEvent []) staleInit

/-! ## Claim theorems -/

/-- C1, counterexample: the claim fails as stated because the code guards on
the raw length of the search text (`searchText.length < 3`, line 1109), not
its trimmed length.  The quote `" a "` has raw length 3 but trims to `"a"` of
length 1 < 3, and the matcher still produces highlights: the rendered content
changes. -/
theorem guard_raw_length_counterexample :
    (trimWs " a ".data).length < 3 ∧
    processCitation "a cat".data 0 ⟨1, some " a ", none⟩ ≠ "a cat".data :=
  ⟨by decide, by decide⟩

/-- C1 (amended): for every citation with neither a usable quote nor a usable
content preview, or whose search text has RAW length < 3, the highlight
operation produces no highlight and leaves the content unchanged (the
embedded matcher is a total function, so no error is raised). -/
theorem short_or_missing_quote_skipped (content : List Char) (cIdx : Nat) (c : Citation)
    (h : searchTextOf c = none ∨ ∃ s, searchTextOf c = some s ∧ s.length < 3) :
    processCitation content cIdx c = content := by
  rcases h with h | ⟨s, hs, hl⟩
  · simp [processCitation, h]
  · simp [processCitation, hs, hl]

/-- C1 witness: the citation `{page := 1, quote := "ab"}` (raw length 2) is
skipped on the page text `"xyab"`. -/
theorem short_quote_witness :
    processCitation "xyab".data 0 ⟨1, some "ab", none⟩ = "xyab".data :=
  short_or_missing_quote_skipped _ _ _ (Or.inr ⟨"ab", by decide, by decide⟩)

/-- C2: the normalization `replace(/\s+/g, ' ').trim()` applied to quotes
before matching is idempotent. -/
theorem normalize_idem (s : String) : normalize (normalize s) = normalize s := by
  show String.mk (normalizeL (normalizeL s.data)) = String.mk (normalizeL s.data)
  exact congrArg String.mk (normalizeL_idem s.data)

/-- C3, counterexample: the claim fails as stated because the code suppresses
the inserted space only after a literal trailing space (`endsWith(' ')`, line
1065), not after arbitrary trailing whitespace.  A run ending in a tab, with a
same-line successor more than 5 units to the right, still receives an
inserted space. -/
theorem extraction_ws_counterexample :
    extractPageText [⟨"a\t", some (0, 0), 1⟩, ⟨"b", some (10, 0), 1⟩] ≠
      extractLinearText endsWithWsB [⟨"a\t", some (0, 0), 1⟩, ⟨"b", some (10, 0), 1⟩] := by
  decide

/-- C3 (amended): the extraction returns the trimmed concatenation of the
non-empty runs' strings, with a line break before a run whose Y differs from
the previous non-empty run's by more than 5 units, and one space after a run
whose raw successor is on the same visual line (Y difference < 2) with a
horizontal gap above 5 units, unless the run's text already ends in a SPACE
CHARACTER; the empty run list yields the empty string. -/
theorem extraction_matches_description (items : List Run) :
    extractPageText items = extractLinearText endsWithSpaceB items ∧
    extractPageText [] = [] :=
  ⟨extractPageText_eq_spec items, rfl⟩

/-- C4: the code contradicts its own comment "Try exact match first with
flexible whitespace" (line 1115).  `escapeRegExp` is applied after `\s+` has
been substituted into the pattern, so the compiled tier-1 regex matches the
literal text `foo\s+bar`: it finds nothing in a page containing "foo bar"
verbatim, while on a page containing the literal characters `foo\s+bar` it
"succeeds" with a span whose normalization differs from the normalized quote
even modulo case — exactly what claim C4 rules out. -/
theorem tier1_escaping_bug :
    escapeRegExp (flexRepl (normalizeL "foo bar".data)) = "foo\\\\s\\+bar".data ∧
    matchAllLitCI (flexRepl (normalizeL "foo bar".data)) "foo bar".data = [] ∧
    matchAllLitCI (flexRepl (normalizeL "foo bar".data)) "see foo\\s+bar here".data =
      [(4, "foo\\s+bar".data)] ∧
    (normalizeL "foo\\s+bar".data).map Char.toLower ≠
      (normalizeL "foo bar".data).map Char.toLower :=
  ⟨by decide, by decide, by decide, by decide⟩

/-- C5, counterexample: the claim fails as stated.  With both phrase tiers
failing, the code neither caps the word list at 15 nor requires word length
> 3: for `c5quote` on the page `"a cat zebra go"` the claim's reading (first
15 words longer than 3 characters) highlights nothing, while the code
highlights both `"cat"` (length 3) and `"zebra"` (the sixteenth word of
length > 3). -/
theorem word_fallback_counterexample :
    matchAllLitCI (flexRepl (normalizeL c5quote.data)) "a cat zebra go".data = [] ∧
    matchAllSeq (((splitWs (normalizeL c5quote.data)).filter
      (fun w => 2 < w.length)).map stripPunct) "a cat zebra go".data = [] ∧
    claimWordFallback 0 (normalizeL c5quote.data) "a cat zebra go".data =
      "a cat zebra go".data ∧
    processCitation "a cat zebra go".data 0 ⟨1, some c5quote, none⟩ ≠
      "a cat zebra go".data :=
  ⟨by decide, by decide, by decide, by decide⟩

/-- C5 (amended): when both phrase tiers fail, the matcher takes EVERY word of
the normalized quote longer than 2 characters (no 15-word cap), strips
`[,.\-&()]` from each, and for each stripped word still longer than 2
characters independently highlights every whole-word case-insensitive
occurrence in the current content. -/
theorem word_fallback_per_word (content : List Char) (cIdx : Nat) (c : Citation)
    (s : String) (hs : searchTextOf c = some s) (hlen : ¬ s.length < 3)
    (h1 : matchAllLitCI (flexRepl (normalizeL s.data)) content = [])
    (h2 : 1 < ((splitWs (normalizeL s.data)).filter (fun w => 2 < w.length)).length →
      matchAllSeq (((splitWs (normalizeL s.data)).filter (fun w => 2 < w.length)).map
        stripPunct) content = []) :
    processCitation content cIdx c =
      ((((splitWs (normalizeL s.data)).filter (fun w => 2 < w.length)).map
          stripPunct).filter (fun w => 2 < w.length)).foldl
        (fun acc w => replaceWordAll cIdx w acc) content :=
  (processCitation_eq_fallback content cIdx c s hs hlen h1 h2).trans
    (fallbackWords_eq_filtered cIdx _ content)

/-- C5 witness: the quote `"cat dog"` on the page `"the cat sat"` reaches the
word fallback. -/
theorem word_fallback_witness :
    processCitation "the cat sat".data 0 ⟨1, some "cat dog", none⟩ =
      ((((splitWs (normalizeL "cat dog".data)).filter (fun w => 2 < w.length)).map
          stripPunct).filter (fun w => 2 < w.length)).foldl
        (fun acc w => replaceWordAll 0 w acc) "the cat sat".data :=
  word_fallback_per_word "the cat sat".data 0 ⟨1, some "cat dog", none⟩ "cat dog"
    (by decide) (by decide) (by decide) (fun _ => by decide)

/-- C6, counterexample: the claim fails as stated — the code has no
sentence-subsequence tier.  `c6quote` normalizes to more than 100 characters,
its first sentence (kept by the claimed `[.!?]+` split, longer than 20
characters) occurs verbatim on the page, and both phrase tiers fail; yet the
output contains no contiguous `citation-highlight` element at all, only
word-fallback `citation-highlight-word` elements. -/
theorem no_sentence_tier_counterexample :
    100 < (normalizeL c6quote.data).length ∧
    20 < c6sentence.length ∧
    countLit c6sentence.data c6page.data = 1 ∧
    countLit "class=\"citation-highlight\"".data
      (processCitation c6page.data 0 ⟨1, some c6quote, none⟩) = 0 ∧
    countLit "class=\"citation-highlight-word\"".data
      (processCitation c6page.data 0 ⟨1, some c6quote, none⟩) ≠ 0 :=
  ⟨by decide, by decide, by decide, by decide, by decide⟩

/-- C6 (amended): no sentence-subsequence tier exists.  For every quote whose
normalized form exceeds 100 characters and for which the tier-1 and tier-2
searches fail, the matcher proceeds directly to the per-word fallback — even
when a sentence of the quote occurs verbatim in the page text. -/
theorem long_quote_falls_to_words (content : List Char) (cIdx : Nat) (c : Citation)
    (s : String) (hs : searchTextOf c = some s) (hlen : ¬ s.length < 3)
    (hlong : 100 < (normalizeL s.data).length)
    (h1 : matchAllLitCI (flexRepl (normalizeL s.data)) content = [])
    (h2 : 1 < ((splitWs (normalizeL s.data)).filter (fun w => 2 < w.length)).length →
      matchAllSeq (((splitWs (normalizeL s.data)).filter (fun w => 2 < w.length)).map
        stripPunct) content = []) :
    processCitation content cIdx c =
      fallbackWords cIdx ((splitWs (normalizeL s.data)).filter (fun w => 2 < w.length))
        content :=
  processCitation_eq_fallback content cIdx c s hs hlen h1 h2

/-- C6 witness: `c6quote` (normalized length 106) against the page holding its
first sentence verbatim. -/
theorem long_quote_witness :
    processCitation c6page.data 0 ⟨1, some c6quote, none⟩ =
      fallbackWords 0 ((splitWs (normalizeL c6quote.data)).filter (fun w => 2 < w.length))
        c6page.data :=
  long_quote_falls_to_words c6page.data 0 ⟨1, some c6quote, none⟩ c6quote
    (by decide) (by decide) (by decide) (by decide) (fun _ => by decide)

/-- C7: a citation whose page differs from the current page contributes no
highlight — removing it from the citation list does not change the rendered
output of `applyHighlights` for that page. -/
theorem offPage_citation_inert (pt : String) (pre post : List Citation)
    (c : Citation) (p : Int) (h : c.page ≠ p) :
    applyHighlights pt (pre ++ c :: post) p = applyHighlights pt (pre ++ post) p := by
  unfold applyHighlights
  have hf : (pre ++ c :: post).filter (fun x => x.page == p) =
      (pre ++ post).filter (fun x => x.page == p) := by
    simp [List.filter_append, List.filter_cons, h]
  rw [hf]

/-- C7 witness: a page-2 citation is inert while page 1 is displayed. -/
theorem offPage_witness :
    applyHighlights "some page" ([] ++ ⟨2, some "page", none⟩ :: []) 1 =
      applyHighlights "some page" ([] ++ []) 1 :=
  offPage_citation_inert "some page" [] [] ⟨2, some "page", none⟩ 1 (by decide)

/-- C8: rebuilding highlights twice in a row from the same page text, citation
list and current page equals rebuilding once — each rebuild recomputes
`highlightedText` from the unhighlighted `pageText` — and in particular the
number of highlight elements is the same. -/
theorem rebuild_highlights_idem (s : PanelState) (cits : List Citation) :
    rebuildHighlights (rebuildHighlights s cits) cits = rebuildHighlights s cits ∧
    countLit "<mark ".data
        (rebuildHighlights (rebuildHighlights s cits) cits).highlightedText.data =
      countLit "<mark ".data (rebuildHighlights s cits).highlightedText.data := by
  have h : rebuildHighlights (rebuildHighlights s cits) cits = rebuildHighlights s cits := by
    unfold rebuildHighlights
    by_cases hp : s.pageText.data = [] <;> simp [hp]
  exact ⟨h, by rw [h]⟩

/-- C9: the claim fails on the code — there is no generation counter, so a
stale extraction completion IS applied.  After navigating to page 2 and
receiving page 2's text, the late completion of page 1's extraction (started
before the navigation) overwrites the page text and the highlights of the
currently displayed page 2. -/
theorem stale_extract_applied :
    staleMid.currentPage = 2 ∧
    staleMid.highlightedText = "page two text" ∧
    (stepEvent [] staleMid (PanelEvent.completeExtract 1 "page one text")).currentPage = 2 ∧
    (1 : Int) ≠ 2 ∧
    (stepEvent [] staleMid (PanelEvent.completeExtract 1 "page one text")).highlightedText =
      "page one text" ∧
    (stepEvent [] staleMid (PanelEvent.completeExtract 1 "page one text")).highlightedText ≠
      staleMid.highlightedText :=
  ⟨by decide, by decide, by decide, by decide, by decide, by decide⟩

/-- C10: once 1 ≤ currentPage ≤ totalPages holds, `goToPage`,
`handlePrevPage` and `handleNextPage` all preserve it, and an out-of-range
`goToPage` leaves the current page unchanged. -/
theorem navigation_preserves_invariant (s : PanelState) (h : pageInvariant s) :
    (∀ n, pageInvariant (goToPage s n)) ∧
    pageInvariant (handlePrevPage s) ∧
    pageInvariant (handleNextPage s) ∧
    (∀ n, ¬ (1 ≤ n ∧ n ≤ s.totalPages) → (goToPage s n).currentPage = s.currentPage) := by
  obtain ⟨h1, h2⟩ := h
  refine ⟨fun n => ?_, ?_, ?_, fun n hn => ?_⟩
  · unfold goToPage pageInvariant
    split <;> simp_all
  · unfold handlePrevPage pageInvariant
    split <;> simp_all <;> omega
  · unfold handleNextPage pageInvariant
    split <;> simp_all <;> omega
  · unfold goToPage
    rw [if_neg hn]

/-- C10 witness: from the state (page 2 of 3), navigation stays in range and
an out-of-range `goToPage 7` is a no-op. -/
theorem navigation_witness :
    pageInvariant (handleNextPage ⟨2, 3, "", ""⟩) ∧
    (goToPage ⟨2, 3, "", ""⟩ 7).currentPage = 2 :=
  ⟨(navigation_preserves_invariant ⟨2, 3, "", ""⟩ ⟨by decide, by decide⟩).2.2.1,
   (navigation_preserves_invariant ⟨2, 3, "", ""⟩ ⟨by decide, by decide⟩).2.2.2 7
     (by decide)⟩

end FrontendLegal
